import Mathlib

/-!
Verification development for the arXiv RSS feed cleaner (`arxivrss.py`).

The metadata extractor (`Article.parse_title`) applies four Python regular
expressions with `re.search`.  Each regex is embedded below as an executable
function on `List Char` that makes Python's leftmost-longest (greedy,
backtracking) match semantics explicit: greedy quantifiers try the longest
extent first (`tryDown`), `.` matches every character except a newline, and
`\s` is the whitespace class.  The deduplication pipeline is embedded twice:
once value-level (lists of articles), and once with an explicit store of
references, which captures Python's shallow-copy (`copy.copy`) aliasing of
the `articles` mapping between pipeline stages.
-/

deriving instance DecidableEq for Except

namespace Arxivrss

/-- Python regex `\s` whitespace class (ASCII part, which is all that arXiv
titles contain). -/
def isPySpace (c : Char) : Bool :=
  c == ' ' || c == '\t' || c == '\n' || c == '\r' || c == '\x0b' || c == '\x0c'

/-- Python regex `.` (without `DOTALL`): any character except a newline. -/
def isDotChar (c : Char) : Bool := !(c == '\n')

/-- Length of the longest match of `\s*` at the front of `s`. -/
def wsCount (s : List Char) : Nat := (s.takeWhile isPySpace).length

/-- Length of the longest match of `.*` at the front of `s`. -/
def dotCount (s : List Char) : Nat := (s.takeWhile isDotChar).length

/-- Backtracking order of a greedy quantifier: try the longest candidate
first, then shorter ones, returning the first success. -/
def tryDown {α : Type} (f : Nat → Option α) : Nat → Option α
  | 0 => f 0
  | n + 1 => (f (n + 1)).orElse (fun _ => tryDown f n)

/-- `RE_TITLE = ^\s*(.+)\s*\((.+)\)\s*$` applied with `re.search` (the `^`
anchor restricts the search to position 0).  Returns `(group 1, group 2)`.
The four quantifiers backtrack in priority order: leading `\s*`, then
group 1 `.+`, then the middle `\s*`, then group 2 `.+`; the trailing
`\s*$` succeeds exactly when the rest of the string is whitespace.  The
pattern's suffix after each quantifier is a named continuation:
`reTitleTail` is `(.+)\)\s*$` applied after the literal `\(` with the
already-captured group 1, and `reTitleAfterB` is `\s*\((.+)\)\s*$`. -/
def reTitleTail (g1 : List Char) (s3 : List Char) : Option (List Char × List Char) :=
  tryDown (fun d =>
    if d = 0 ∨ d > dotCount s3 then none else
    match s3.drop d with
    | [] => none
    | c2 :: s4 =>
      if c2 = ')' then
        if s4.all isPySpace then some (g1, s3.take d) else none
      else none) s3.length

/-- Continuation `\s*\((.+)\)\s*$` of `RE_TITLE` with group 1 already
captured as `g1`. -/
def reTitleAfterB (g1 : List Char) (s2 : List Char) : Option (List Char × List Char) :=
  tryDown (fun c =>
    if c > wsCount s2 then none else
    match s2.drop c with
    | [] => none
    | c1 :: s3 => if c1 = '(' then reTitleTail g1 s3 else none) s2.length

/-- Continuation `(.+)\s*\((.+)\)\s*$` of `RE_TITLE` after the leading
`\s*` consumed `a` characters. -/
def reTitleAfterA (s1 : List Char) : Option (List Char × List Char) :=
  tryDown (fun b =>
    if b = 0 ∨ b > dotCount s1 then none else
    reTitleAfterB (s1.take b) (s1.drop b)) s1.length

/-- The full `RE_TITLE` search. -/
def reTitleSearch (s : List Char) : Option (List Char × List Char) :=
  tryDown (fun a =>
    if a > wsCount s then none else reTitleAfterA (s.drop a)) s.length

/-- Character class `[^v\s]` of `RE_ID`. -/
def isIdChar (c : Char) : Bool := !(c == 'v') && !(isPySpace c)

/-- One attempt of `RE_ID = arXiv:([^v\s]+)(v([0-9]+))?` at the start of `s`:
the literal `arXiv:`, then the greedy identifier run (never backtracked,
since the rest of the pattern is optional), then the optional version group.
Returns `(group 1, group 3)`. -/
def reIdMatchAt (s : List Char) : Option (List Char × Option (List Char)) :=
  if s.take 6 = "arXiv:".toList then
    let s1 := s.drop 6
    let idtok := s1.takeWhile isIdChar
    if idtok = [] then none
    else
      match s1.drop idtok.length with
      | [] => some (idtok, none)
      | c :: s3 =>
        if c = 'v' then
          let digits := s3.takeWhile Char.isDigit
          if digits = [] then some (idtok, none) else some (idtok, some digits)
        else some (idtok, none)
  else none

/-- `re.search` for `RE_ID`: leftmost position at which the pattern matches. -/
def reIdSearch : List Char → Option (List Char × Option (List Char))
  | [] => none
  | c :: rest => (reIdMatchAt (c :: rest)).orElse (fun _ => reIdSearch rest)

/-- Character class `[^\[\]]` of `RE_SUBJECT`. -/
def isSubjChar (c : Char) : Bool := !(c == '[') && !(c == ']')

/-- One attempt of `RE_SUBJECT = \[([^\[\]]+)\]` at the start of `s`.  The
greedy inner run is never usefully backtracked: every shorter extent ends at
a non-`]` character, so a failure of the closing `]` is final here. -/
def reSubjectMatchAt (s : List Char) : Option (List Char) :=
  match s with
  | [] => none
  | c :: s1 =>
    if c = '[' then
      let tok := s1.takeWhile isSubjChar
      if tok = [] then none
      else
        match s1.drop tok.length with
        | [] => none
        | c2 :: _ => if c2 = ']' then some tok else none
    else none

/-- `re.search` for `RE_SUBJECT`: leftmost match. -/
def reSubjectSearch : List Char → Option (List Char)
  | [] => none
  | c :: rest => (reSubjectMatchAt (c :: rest)).orElse (fun _ => reSubjectSearch rest)

/-- One attempt of `RE_UPDATED = UPDATED\s*$` at the start of `s`. -/
def reUpdatedMatchAt (s : List Char) : Bool :=
  s.take 7 = "UPDATED".toList && (s.drop 7).all isPySpace

/-- `re.search` for `RE_UPDATED`, as the boolean `search(...) is not None`. -/
def reUpdatedSearch : List Char → Bool
  | [] => false
  | c :: rest => reUpdatedMatchAt (c :: rest) || reUpdatedSearch rest

/-- Python `str.lstrip()` for whitespace. -/
def lstrip (s : List Char) : List Char := s.dropWhile isPySpace

/-- Python `str.rstrip()` for whitespace. -/
def rstrip (s : List Char) : List Char := (s.reverse.dropWhile isPySpace).reverse

/-- Python `str.strip()` for whitespace. -/
def pyStrip (s : List Char) : List Char := rstrip (lstrip s)

/-- Python `int()` on a string of decimal digits. -/
def natOfDigits (s : List Char) : Nat :=
  s.foldl (fun acc c => 10 * acc + (c.toNat - '0'.toNat)) 0

/-- The tuple returned by `Article.parse_title`. -/
structure ParsedTitle where
  title : List Char
  id : List Char
  version : Nat
  subject : List Char
  updated : Bool
  deriving DecidableEq

/-- The exceptions `Article.parse_title` can raise: the `ValueError` for an
empty/missing title text, the three `ValueError("no matches for regex ...")`
sites of `_extract_regex_matches`, and the `TypeError` raised by
`int(version)` when the optional version group matched nothing (`None`). -/
inductive PyErr
  | emptyTitleText
  | noTitleMatch
  | noIdMatch
  | noSubjectMatch
  | intOfNone
  deriving DecidableEq

/-- Which of the errors are `ValueError`s (the repository's extraction
errors), as opposed to the `TypeError` from `int(None)`. -/
def PyErr.isExtraction : PyErr → Bool
  | .intOfNone => false
  | _ => true

/-- `Article.parse_title`: split title/metadata with `RE_TITLE`, extract
identifier and optional version with `RE_ID`, the subject with `RE_SUBJECT`,
the updated flag with `RE_UPDATED`, and return the stripped fields, with
`int(version)` evaluated on the way out. -/
def parse_title (text : List Char) : Except PyErr ParsedTitle :=
  if text = [] then .error .emptyTitleText
  else
    match reTitleSearch text with
    | none => .error .noTitleMatch
    | some (title, meta) =>
      match reIdSearch meta with
      | none => .error .noIdMatch
      | some (axid, vers) =>
        match reSubjectSearch meta with
        | none => .error .noSubjectMatch
        | some subj =>
          let updated := reUpdatedSearch meta
          match vers with
          | none => .error .intOfNone
          | some ds =>
            .ok ⟨pyStrip title, pyStrip axid, natOfDigits ds, pyStrip subj, updated⟩

/-! ## The feed pipeline, value level

`Feed.articles` is an `OrderedDict` keyed by `Article` objects (values are
the underlying XML item nodes).  `Article` defines neither `__eq__` nor
`__hash__`, so dictionary keys and the Stage-C `queue` set compare articles
by Python object identity; the field `oid` stands for `id(article)` and the
field `node` for the identity of the XML item element the article points
back to.  An `OrderedDict` whose keys are distinct objects is embedded as
the ordered list of its keys; `del d[k]` for a marked set of keys is the
order-preserving filter. -/

/-- An `Article`, with `oid` its Python object identity and `node` the
identity of the RSS `item` element it was parsed from. -/
structure Article where
  oid : Nat
  node : Nat
  title : String
  id : String
  version : Nat
  subject : String
  updated : Bool
  deriving DecidableEq

/-- A `Feed`: its subject code, the ordered keys of its `articles` mapping,
and the identities of the `rss:item` nodes of its owned XML tree in
document order. -/
structure Feed where
  subject : String
  articles : List Article
  xmlItems : List Nat
  deriving DecidableEq

/-- `_remove_updated`: mark every article whose `updated` flag is set, then
delete the marked keys. -/
def _remove_updated (feed : Feed) : Feed :=
  { feed with articles := feed.articles.filter (fun a => !a.updated) }

/-- `remove_updated_articles`: apply `_remove_updated` to every feed. -/
def remove_updated_articles (feeds : List Feed) : List Feed :=
  feeds.map _remove_updated

/-- `_clean_up_crosses`: with `subjects` the set of requested feed keys,
drop from each feed the articles whose own subject is a different requested
subject. -/
def _clean_up_crosses (feeds : List Feed) : List Feed :=
  let subjects := feeds.map (fun f => f.subject)
  feeds.map (fun f =>
    let kept := f.articles.filter
      (fun a => !(decide (a.subject ≠ f.subject) && decide (a.subject ∈ subjects)))
    { f with articles := kept })

/-- The inner loop of `_deduplicate_in_order` over one feed's articles:
`if article not in queue: queue.add(article); continue` — membership in the
`set` is by object identity (`oid`), since `Article` defines no `__eq__` or
`__hash__`.  Returns the grown queue and the kept articles. -/
def dedupArts (queue : List Nat) : List Article → List Nat × List Article
  | [] => (queue, [])
  | a :: rest =>
    if a.oid ∈ queue then
      let r := dedupArts queue rest
      (r.1, r.2)
    else
      let r := dedupArts (a.oid :: queue) rest
      (r.1, a :: r.2)

/-- `_deduplicate_in_order`'s loop over the feeds, threading the queue in
the fixed subject order. -/
def dedupFeedsGo (queue : List Nat) : List Feed → List Feed
  | [] => []
  | f :: rest =>
    let r := dedupArts queue f.articles
    { f with articles := r.2 } :: dedupFeedsGo r.1 rest

/-- `_deduplicate_in_order`: global duplicate removal with an initially
empty seen-`queue`. -/
def _deduplicate_in_order (feeds : List Feed) : List Feed :=
  dedupFeedsGo [] feeds

/-- `deduplicate_feeds`: skip entirely for fewer than two feeds, else
cross-post removal followed by in-order deduplication. -/
def deduplicate_feeds (feeds : List Feed) : List Feed :=
  if feeds.length < 2 then feeds
  else _deduplicate_in_order (_clean_up_crosses feeds)

/-- `_match_xml_to_articles`: remove from the owned XML tree every item node
not among `articles.values()` (the nodes of the surviving articles). -/
def _match_xml_to_articles (feed : Feed) : Feed :=
  let kept := feed.xmlItems.filter (fun nd => feed.articles.any (fun a => decide (a.node = nd)))
  { feed with xmlItems := kept }

/-- `match_xml_to_articles`: apply the sync step to every feed. -/
def match_xml_to_articles (feeds : List Feed) : List Feed :=
  feeds.map _match_xml_to_articles

/-- Outcome of `process_arxiv_feeds`: success carries the written files
(subject, exported item nodes); the per-feed reporting loop raises
`ZeroDivisionError` before any file is written when some feed's
pre-pipeline count is zero; the total reporting line divides after the
files are written. -/
inductive DriverOutcome
  | ok (written : List (String × List Nat))
  | perFeedZeroDiv
  | totalZeroDiv (written : List (String × List Nat))
  deriving DecidableEq

/-- `process_arxiv_feeds`, from the point where the feeds are constructed:
record pre-pipeline counts, run the three pipeline calls, log per-feed
reductions (dividing by each pre count), write one file per feed, then log
the total reduction (dividing by the summed pre count). -/
def process_arxiv_feeds (feeds : List Feed) : DriverOutcome :=
  let pre := feeds.map (fun f => f.articles.length)
  let fs := match_xml_to_articles (deduplicate_feeds (remove_updated_articles feeds))
  if (0 : Nat) ∈ pre then .perFeedZeroDiv
  else
    let written := fs.map (fun f => (f.subject, f.xmlItems))
    if pre.sum = 0 then .totalZeroDiv written else .ok written

/-! ## The feed pipeline, reference level

Python's `copy.copy` used by every stage is shallow: it produces a fresh
outer mapping (or a fresh `Feed` object) whose attributes alias the same
underlying `OrderedDict` of articles and the same XML tree.  To state what
a stage does to its *input*, the collections live in a `Store` indexed by
reference, and a `PFeed` holds references.  `storeSetDict` is the in-place
mutation performed by the `del feed.articles[article]` loop. -/

/-- A Python `Feed` object: subject plus references to its `articles`
mapping and its owned XML tree. -/
structure PFeed where
  subject : String
  articlesRef : Nat
  xmlRef : Nat
  deriving DecidableEq

/-- The store of mutable collections reachable from the feeds. -/
structure Store where
  dicts : Nat → List Article
  xmls : Nat → List Nat

/-- Overwrite one `articles` mapping in place. -/
def storeSetDict (st : Store) (r : Nat) (v : List Article) : Store :=
  { st with dicts := fun x => if x = r then v else st.dicts x }

/-- Read a `PFeed` back into a value-level `Feed` through the store. -/
def readFeed (st : Store) (f : PFeed) : Feed :=
  { subject := f.subject, articles := st.dicts f.articlesRef, xmlItems := st.xmls f.xmlRef }

/-- Reference-level `remove_updated_articles`: for each feed, `copy.copy`
the `Feed` object (same `articles` reference) and delete the updated
articles from the shared mapping. -/
def remove_updated_articlesH (st : Store) : List PFeed → Store × List PFeed
  | [] => (st, [])
  | f :: rest =>
    let st1 := storeSetDict st f.articlesRef
      ((st.dicts f.articlesRef).filter (fun a => !a.updated))
    let r := remove_updated_articlesH st1 rest
    (r.1, f :: r.2)

/-- Reference-level `_clean_up_crosses` loop body over the feeds. -/
def cleanUpCrossesGoH (subjects : List String) (st : Store) : List PFeed → Store
  | [] => st
  | f :: rest =>
    let kept := (st.dicts f.articlesRef).filter
      (fun a => !(decide (a.subject ≠ f.subject) && decide (a.subject ∈ subjects)))
    cleanUpCrossesGoH subjects (storeSetDict st f.articlesRef kept) rest

/-- Reference-level `_clean_up_crosses`: the shallow-copied outer mapping
holds the same `Feed` objects; their shared `articles` mappings are mutated
in place. -/
def _clean_up_crossesH (st : Store) (feeds : List PFeed) : Store × List PFeed :=
  (cleanUpCrossesGoH (feeds.map (fun f => f.subject)) st feeds, feeds)

/-- Reference-level `_deduplicate_in_order` loop, threading the seen-queue. -/
def dedupGoH (st : Store) (queue : List Nat) : List PFeed → Store
  | [] => st
  | f :: rest =>
    let r := dedupArts queue (st.dicts f.articlesRef)
    dedupGoH (storeSetDict st f.articlesRef r.2) r.1 rest

/-- Reference-level `_deduplicate_in_order`. -/
def _deduplicate_in_orderH (st : Store) (feeds : List PFeed) : Store × List PFeed :=
  (dedupGoH st [] feeds, feeds)

/-- Reference-level `match_xml_to_articles` loop: each step rewrites the
shared XML tree in place and leaves every `articles` mapping untouched. -/
def matchXmlGoH (st : Store) : List PFeed → Store
  | [] => st
  | f :: rest =>
    let kept := (st.xmls f.xmlRef).filter
      (fun nd => (st.dicts f.articlesRef).any (fun a => decide (a.node = nd)))
    matchXmlGoH { st with xmls := fun x => if x = f.xmlRef then kept else st.xmls x } rest

/-- Reference-level `match_xml_to_articles`. -/
def match_xml_to_articlesH (st : Store) (feeds : List PFeed) : Store × List PFeed :=
  (matchXmlGoH st feeds, feeds)

/-! ## Helper lemmas -/

theorem optOrElse_some {α : Type} (a : α) (g : Unit → Option α) :
    (some a).orElse g = some a := rfl

theorem optOrElse_none {α : Type} (g : Unit → Option α) :
    (none : Option α).orElse g = g () := rfl

/-- A greedy quantifier settles on extent `k` when `k` succeeds and every
longer extent up to the bound fails. -/
theorem tryDown_eq_of {α : Type} (f : Nat → Option α) (v : α) :
    ∀ (n k : Nat), k ≤ n → f k = some v →
      (∀ j, k < j → j ≤ n → f j = none) → tryDown f n = some v := by
  intro n
  induction n with
  | zero =>
    intro k hk hv _
    interval_cases k
    simpa [tryDown] using hv
  | succ m ih =>
    intro k hk hv hnone
    rcases Nat.eq_or_lt_of_le hk with h | h
    · subst h
      simp [tryDown, hv, optOrElse_some]
    · have hm : f (m + 1) = none := hnone (m + 1) h (Nat.le_refl _)
      have : tryDown f m = some v :=
        ih k (Nat.lt_succ_iff.mp h) hv (fun j h1 h2 => hnone j h1 (Nat.le_succ_of_le h2))
      simp [tryDown, hm, optOrElse_none, this]

theorem tryDown_eq_none {α : Type} (f : Nat → Option α) :
    ∀ n : Nat, (∀ k, k ≤ n → f k = none) → tryDown f n = none := by
  intro n
  induction n with
  | zero => intro h; simpa [tryDown] using h 0 (Nat.le_refl 0)
  | succ m ih =>
    intro h
    have hm : f (m + 1) = none := h (m + 1) (Nat.le_refl _)
    simp [tryDown, hm, optOrElse_none, ih (fun k hk => h k (Nat.le_succ_of_le hk))]

theorem take_append_add {α : Type} (l r : List α) (n : Nat) :
    (l ++ r).take (l.length + n) = l ++ r.take n := by
  induction l with
  | nil => simp
  | cons x xs ih => simp [List.take_succ_cons, Nat.succ_add, ih]

theorem drop_append_add {α : Type} (l r : List α) (n : Nat) :
    (l ++ r).drop (l.length + n) = r.drop n := by
  induction l with
  | nil => simp
  | cons x xs ih => simp [List.drop_succ_cons, Nat.succ_add, ih]

theorem drop_append_ge {α : Type} (l r : List α) (m : Nat) (h : l.length ≤ m) :
    (l ++ r).drop m = r.drop (m - l.length) := by
  have : m = l.length + (m - l.length) := by omega
  rw [this, drop_append_add]
  congr 1
  omega

theorem takeWhile_eq_self_of_all {α : Type} (p : α → Bool) (l : List α)
    (h : ∀ x ∈ l, p x = true) : l.takeWhile p = l := by
  have h2 : l.dropWhile p = [] := List.dropWhile_eq_nil_iff.mpr h
  have h3 := List.takeWhile_append_dropWhile p l
  rwa [h2, List.append_nil] at h3

theorem takeWhile_append_stop {α : Type} (p : α → Bool) (l r : List α)
    (h : ∃ x ∈ l, p x = false) : (l ++ r).takeWhile p = l.takeWhile p := by
  induction l with
  | nil => rcases h with ⟨x, hx, _⟩; cases hx
  | cons y ys ih =>
    rcases hp : p y with _ | _
    · simp [List.takeWhile_cons, hp]
    · have h' : ∃ x ∈ ys, p x = false := by
        rcases h with ⟨x, hx, hxf⟩
        rcases List.mem_cons.mp hx with rfl | hmem
        · rw [hp] at hxf; cases hxf
        · exact ⟨x, hmem, hxf⟩
      simp [List.takeWhile_cons, hp, ih h']

theorem dropWhile_head_neg {α : Type} (p : α → Bool) :
    ∀ (l : List α) (x : α) (xs : List α), l.dropWhile p = x :: xs → p x = false := by
  intro l
  induction l with
  | nil => intro x xs h; cases h
  | cons y ys ih =>
    intro x xs h
    rcases hp : p y with _ | _
    · rw [List.dropWhile_cons, hp] at h
      simp at h
      rw [← h.1]
      exact hp
    · rw [List.dropWhile_cons, hp] at h
      simp at h
      exact ih x xs h

theorem dropWhile_eq_self_of_all_neg {α : Type} (p : α → Bool) (l : List α)
    (h : ∀ x ∈ l, p x = false) : l.dropWhile p = l := by
  cases l with
  | nil => rfl
  | cons y ys => simp [List.dropWhile_cons, h y (List.mem_cons_self y ys)]

theorem not_cons_of_not_mem {α : Type} [DecidableEq α] {c : α} {l : List α}
    (h : c ∉ l) (m : Nat) : ∀ tl, l.drop m ≠ c :: tl := by
  intro tl heq
  exact h (List.mem_of_mem_drop (heq ▸ List.mem_cons_self c tl))

/-- On input `<meta>)` with `<meta>` nonempty and newline-free, the greedy
group 2 `.+` of `RE_TITLE` extends exactly to the final `)`. -/
theorem reTitleTail_structured (g1 meta : List Char) (hm0 : meta ≠ [])
    (hdot : ∀ c ∈ meta ++ [')'], isDotChar c = true) :
    reTitleTail g1 (meta ++ [')']) = some (g1, meta) := by
  set R : List Char := meta ++ [')'] with hR
  have hR_dotCount : dotCount R = R.length := by
    rw [dotCount, takeWhile_eq_self_of_all _ _ hdot]
  have hRlen : R.length = meta.length + 1 := by simp [hR]
  have hdrop_meta : R.drop meta.length = [')'] := by
    rw [hR]; exact List.drop_left' rfl
  have htake_meta : R.take meta.length = meta := by
    rw [hR]; exact List.take_left' rfl
  apply tryDown_eq_of _ _ _ meta.length (by omega)
  · have hg : ¬(meta.length = 0 ∨ meta.length > dotCount R) := by
      rw [hR_dotCount, hRlen]
      have : meta.length ≠ 0 := fun h => hm0 (List.length_eq_zero.mp h)
      omega
    rw [if_neg hg, hdrop_meta]
    simp [htake_meta]
  · intro j h1 h2
    have hj : j = meta.length + 1 := by omega
    subst hj
    have : R.drop (meta.length + 1) = [] := by
      rw [← hRlen]; exact List.drop_length R
    rw [this]
    split <;> rfl

/-- If the remaining text contains no `(`, the continuation
`\s*\((.+)\)\s*$` fails outright. -/
theorem reTitleAfterB_none (g1 s2 : List Char) (h : '(' ∉ s2) :
    reTitleAfterB g1 s2 = none := by
  apply tryDown_eq_none
  intro c _
  by_cases hg : c > wsCount s2
  · rw [if_pos hg]
  · rw [if_neg hg]
    rcases hdrop : s2.drop c with _ | ⟨c1, tl⟩
    · rfl
    · have hc1 : c1 ≠ '(' := by
        intro h1
        subst h1
        exact not_cons_of_not_mem h c tl hdrop
      simp [hc1]

/-- On input `(<meta>)` the `\(` literal matches at once (the middle `\s*`
matches the empty string first, since `(` is not whitespace). -/
theorem reTitleAfterB_structured (g1 meta : List Char) (hm0 : meta ≠ [])
    (hdot : ∀ c ∈ meta ++ [')'], isDotChar c = true) :
    reTitleAfterB g1 ('(' :: (meta ++ [')'])) = some (g1, meta) := by
  set s2 : List Char := '(' :: (meta ++ [')']) with hs2
  have hws : wsCount s2 = 0 := by
    rw [hs2, wsCount, List.takeWhile_cons]
    rw [show isPySpace '(' = false by decide]
    rfl
  apply tryDown_eq_of _ _ _ 0 (Nat.zero_le _)
  · rw [if_neg (by omega)]
    show (match s2 with
      | [] => none
      | c1 :: s3 => if c1 = '(' then reTitleTail g1 s3 else none) = _
    rw [hs2]
    simpa using reTitleTail_structured g1 meta hm0 hdot
  · intro j h1 _
    rw [if_pos (by omega)]

/-- On input `<title'> (<meta>)` where `<title'>` starts with a
non-whitespace character, is newline-free, and neither it nor `<meta>`
contains a `(` after the separating one, the greedy group 1 extends
exactly to the last `(` of the string. -/
theorem reTitleAfterA_structured (t' meta : List Char)
    (hm0 : meta ≠ [])
    (hdot : ∀ c ∈ t' ++ ' ' :: '(' :: (meta ++ [')']), isDotChar c = true)
    (hmp : ∀ c ∈ meta, c ≠ '(') :
    reTitleAfterA (t' ++ ' ' :: '(' :: (meta ++ [')'])) =
      some (t' ++ [' '], meta) := by
  set R : List Char := meta ++ [')'] with hR
  set s1 : List Char := t' ++ ' ' :: '(' :: R with hs1
  have hpR : '(' ∉ R := by
    intro h
    rcases List.mem_append.mp h with h1 | h1
    · exact hmp _ h1 rfl
    · simp at h1
  have hmdot : ∀ c ∈ meta ++ [')'], isDotChar c = true := by
    intro c hc
    apply hdot
    rw [hs1]
    exact List.mem_append.mpr (Or.inr (List.mem_cons.mpr (Or.inr
      (List.mem_cons.mpr (Or.inr hc)))))
  have hs1_dotCount : dotCount s1 = s1.length := by
    rw [dotCount, takeWhile_eq_self_of_all _ _ hdot]
  set b0 : Nat := t'.length + 1 with hb0
  have hs1_split : s1 = (t' ++ [' ']) ++ '(' :: R := by simp [hs1]
  have hlen1 : (t' ++ [' ']).length = b0 := by simp [hb0]
  have htake_b0 : s1.take b0 = t' ++ [' '] := by
    rw [hs1_split]; exact List.take_left' hlen1
  have hdrop_b0 : s1.drop b0 = '(' :: R := by
    rw [hs1_split]; exact List.drop_left' hlen1
  have hs1_split2 : s1 = (t' ++ [' ', '(']) ++ R := by simp [hs1]
  have hlen2 : (t' ++ [' ', '(']).length = b0 + 1 := by simp [hb0]
  have hb0_le : b0 ≤ s1.length := by
    rw [hs1_split2, List.length_append, hlen2]
    omega
  apply tryDown_eq_of _ _ _ b0 hb0_le
  · rw [if_neg (by rw [hs1_dotCount]; omega), htake_b0, hdrop_b0]
    exact reTitleAfterB_structured _ meta hm0 hmdot
  · intro j h1 h2
    rw [if_neg (by rw [hs1_dotCount]; omega)]
    apply reTitleAfterB_none
    intro hmem
    have hdj : List.drop j s1 = R.drop (j - (t' ++ [' ', '(']).length) := by
      rw [hs1_split2]
      exact drop_append_ge _ _ _ (by rw [hlen2]; omega)
    rw [hdj] at hmem
    exact hpR (List.mem_of_mem_drop hmem)

/-- For a string `<title> (<meta>)` in which the title contains a
non-whitespace character and no newline, and the metadata block is
nonempty, newline-free and contains no `(`, the leftmost-greedy match of
`RE_TITLE` yields group 1 = the title with leading whitespace absorbed by
the anchor's `\s*` (plus the separating space, stripped later) and
group 2 = the metadata block: group 1 is maximal, so the `(` of the match
is the last `(` of the string, and group 2 then extends to the last `)`
followed only by whitespace. -/
theorem reTitleSearch_structured (t meta : List Char)
    (ht : ∃ c ∈ t, isPySpace c = false)
    (htn : ∀ c ∈ t, c ≠ '\n')
    (hmn : ∀ c ∈ meta, c ≠ '\n')
    (hmp : ∀ c ∈ meta, c ≠ '(')
    (hm0 : meta ≠ []) :
    reTitleSearch (t ++ ' ' :: '(' :: (meta ++ [')'])) =
      some (t.dropWhile isPySpace ++ [' '], meta) := by
  set w := t.takeWhile isPySpace with hw
  set w := t.takeWhile isPySpace with hw
  set t' := t.dropWhile isPySpace with ht'
  set R : List Char := meta ++ [')'] with hR
  set s : List Char := t ++ ' ' :: '(' :: R with hs
  have htw : w ++ t' = t := List.takeWhile_append_dropWhile isPySpace t
  have hw_all : ∀ x ∈ w, isPySpace x = true := fun x hx => List.mem_takeWhile_imp hx
  have ht'0 : t' ≠ [] := by
    intro h0
    rcases ht with ⟨c, hc, hcf⟩
    have := List.dropWhile_eq_nil_iff.mp h0 c hc
    rw [this] at hcf
    cases hcf
  obtain ⟨c0, t'', ht'c⟩ : ∃ c0 t'', t' = c0 :: t'' := by
    cases h : t' with
    | nil => exact absurd h ht'0
    | cons a l => exact ⟨a, l, rfl⟩
  have hc0 : isPySpace c0 = false := dropWhile_head_neg isPySpace t c0 t'' ht'c
  have hsplit : s = w ++ (t' ++ ' ' :: '(' :: R) := by
    rw [hs, ← htw, List.append_assoc]
  set s1 : List Char := t' ++ ' ' :: '(' :: R with hs1
  have hs1_dot : ∀ c ∈ s1, isDotChar c = true := by
    intro c hc
    rw [hs1] at hc
    have hne : c ≠ '\n' := by
      rcases List.mem_append.mp hc with h1 | h1
      · refine htn c ?_
        rw [← htw]
        exact List.mem_append.mpr (Or.inr h1)
      · rcases List.mem_cons.mp h1 with rfl | h2
        · decide
        · rcases List.mem_cons.mp h2 with rfl | h3
          · decide
          · rcases List.mem_append.mp h3 with h4 | h4
            · exact hmn c h4
            · simp at h4; subst h4; decide
    simp [isDotChar, hne]
  have hwsCount : wsCount s = w.length := by
    rw [wsCount, hsplit, List.takeWhile_append_of_pos hw_all, hs1, ht'c]
    simp [List.takeWhile_cons, hc0]
  have hdrop_w : s.drop w.length = s1 := by
    rw [hsplit, List.drop_left]
  have hwle : w.length ≤ s.length := by
    rw [hsplit, List.length_append]
    omega
  rw [reTitleSearch]
  apply tryDown_eq_of _ _ _ w.length hwle
  · rw [if_neg (by omega), hdrop_w]
    have := reTitleAfterA_structured t' meta hm0 hs1_dot hmp
    rw [hs1]
    exact this
  · intro j h1 _
    rw [if_pos (by omega)]

/-- `RE_ID` at position 0 of `arXiv:<id>v<n><sp>...`: the identifier run is
the maximal `[^v\s]` run, stopped by the `v` of the version suffix; the
version digits are stopped by the following non-digit. -/
theorem reIdMatchAt_structured (i n r0 : List Char)
    (hi0 : i ≠ []) (hi : ∀ c ∈ i, isIdChar c = true)
    (hn0 : n ≠ []) (hn : ∀ c ∈ n, c.isDigit = true) :
    reIdMatchAt ("arXiv:".toList ++ (i ++ 'v' :: (n ++ ' ' :: r0))) = some (i, some n) := by
  set X : List Char := i ++ 'v' :: (n ++ ' ' :: r0) with hX
  have h6 : ("arXiv:".toList ++ X).take 6 = "arXiv:".toList := List.take_left' rfl
  have hd6 : ("arXiv:".toList ++ X).drop 6 = X := List.drop_left' rfl
  have htw : X.takeWhile isIdChar = i := by
    rw [hX, List.takeWhile_append_of_pos hi, List.takeWhile_cons]
    rw [show isIdChar 'v' = false by decide]
    simp
  have hdw : X.drop i.length = 'v' :: (n ++ ' ' :: r0) := by
    rw [hX]; exact List.drop_left' rfl
  have hdg : (n ++ ' ' :: r0).takeWhile Char.isDigit = n := by
    rw [List.takeWhile_append_of_pos hn, List.takeWhile_cons]
    rw [show (' ').isDigit = false by decide]
    simp
  simp only [reIdMatchAt, h6, hd6, htw, hdw, hdg, if_pos, if_neg]
  simp [hi0, hn0]

/-- `re.search` with `RE_ID` on `arXiv:<id>v<n><sp>...` matches at
position 0. -/
theorem reIdSearch_structured (i n r0 : List Char)
    (hi0 : i ≠ []) (hi : ∀ c ∈ i, isIdChar c = true)
    (hn0 : n ≠ []) (hn : ∀ c ∈ n, c.isDigit = true) :
    reIdSearch ("arXiv:".toList ++ (i ++ 'v' :: (n ++ ' ' :: r0))) = some (i, some n) := by
  have hm := reIdMatchAt_structured i n r0 hi0 hi hn0 hn
  have hlit : "arXiv:".toList = 'a' :: "rXiv:".toList := rfl
  rw [hlit, List.cons_append] at hm ⊢
  rw [reIdSearch, hm]
  rfl

/-- `RE_SUBJECT` fails at any position not starting with `[`. -/
theorem reSubjectMatchAt_none (c : Char) (rest : List Char) (h : c ≠ '[') :
    reSubjectMatchAt (c :: rest) = none := by
  simp [reSubjectMatchAt, h]

/-- The `RE_SUBJECT` search skips any `[`-free region. -/
theorem reSubjectSearch_append_skip (pre rest : List Char) (h : '[' ∉ pre) :
    reSubjectSearch (pre ++ rest) = reSubjectSearch rest := by
  induction pre with
  | nil => rfl
  | cons c cs ih =>
    have hc : c ≠ '[' := fun he => h (he ▸ List.mem_cons_self c cs)
    have h' : '[' ∉ cs := fun hm => h (List.mem_cons_of_mem c hm)
    rw [List.cons_append, reSubjectSearch, reSubjectMatchAt_none c _ hc, optOrElse_none, ih h']

/-- `RE_SUBJECT` at a `[` directly followed by the bracket-free subject and
its closing `]`. -/
theorem reSubjectMatchAt_structured (sj rest : List Char)
    (hs0 : sj ≠ []) (hsj : ∀ c ∈ sj, isSubjChar c = true) :
    reSubjectMatchAt ('[' :: (sj ++ ']' :: rest)) = some sj := by
  have htw : (sj ++ ']' :: rest).takeWhile isSubjChar = sj := by
    rw [List.takeWhile_append_of_pos hsj, List.takeWhile_cons]
    rw [show isSubjChar ']' = false by decide]
    simp
  have hdw : (sj ++ ']' :: rest).drop sj.length = ']' :: rest := List.drop_left' rfl
  simp only [reSubjectMatchAt, htw, hdw]
  simp [hs0]

/-- The `RE_SUBJECT` search on a string whose first `[` opens a well-formed
bracketed token returns that token. -/
theorem reSubjectSearch_structured (pre sj rest : List Char) (hpre : '[' ∉ pre)
    (hs0 : sj ≠ []) (hsj : ∀ c ∈ sj, isSubjChar c = true) :
    reSubjectSearch (pre ++ '[' :: (sj ++ ']' :: rest)) = some sj := by
  rw [reSubjectSearch_append_skip pre _ hpre, reSubjectSearch,
    reSubjectMatchAt_structured sj rest hs0 hsj]
  rfl

/-- One attempt of `RE_UPDATED` succeeds exactly on `UPDATED` followed by
whitespace only. -/
theorem reUpdatedMatchAt_iff (s : List Char) :
    reUpdatedMatchAt s = true ↔
      ∃ w, s = "UPDATED".toList ++ w ∧ ∀ c ∈ w, isPySpace c = true := by
  constructor
  · intro h
    rw [reUpdatedMatchAt, Bool.and_eq_true, decide_eq_true_eq] at h
    obtain ⟨h1, h2⟩ := h
    refine ⟨s.drop 7, ?_, fun c hc => List.all_eq_true.mp h2 c hc⟩
    conv_lhs => rw [← List.take_append_drop 7 s]
    rw [h1]
  · rintro ⟨w, rfl, hw⟩
    have ht : ("UPDATED".toList ++ w).take 7 = "UPDATED".toList := List.take_left' rfl
    have hd : ("UPDATED".toList ++ w).drop 7 = w := List.drop_left' rfl
    rw [reUpdatedMatchAt, ht, hd, Bool.and_eq_true, decide_eq_true_eq]
    exact ⟨rfl, List.all_eq_true.mpr hw⟩

/-- The `RE_UPDATED` search succeeds exactly when the string ends with the
literal token `UPDATED` followed only by (optional) whitespace. -/
theorem reUpdatedSearch_iff (m : List Char) :
    reUpdatedSearch m = true ↔
      ∃ u w, m = u ++ "UPDATED".toList ++ w ∧ ∀ c ∈ w, isPySpace c = true := by
  induction m with
  | nil =>
    simp only [reUpdatedSearch]
    constructor
    · intro h; cases h
    · rintro ⟨u, w, heq, -⟩
      exfalso
      have := congrArg List.length heq
      simp at this
      omega
  | cons c rest ih =>
    rw [reUpdatedSearch, Bool.or_eq_true, ih, reUpdatedMatchAt_iff]
    constructor
    · rintro (⟨w, heq, hw⟩ | ⟨u, w, heq, hw⟩)
      · exact ⟨[], w, by simpa using heq, hw⟩
      · exact ⟨c :: u, w, by simp [heq], hw⟩
    · rintro ⟨u, w, heq, hw⟩
      cases u with
      | nil => exact Or.inl ⟨w, by simpa using heq, hw⟩
      | cons c' u' =>
        right
        rw [List.cons_append, List.cons_append, List.cons_eq_cons] at heq
        exact ⟨u', w, by simpa using heq.2, hw⟩

/-- A string whose final character is neither whitespace nor `D` does not
match `UPDATED\s*$` anywhere. -/
theorem reUpdatedSearch_concat_false (l : List Char) (c : Char)
    (h1 : isPySpace c = false) (h2 : c ≠ 'D') :
    reUpdatedSearch (l ++ [c]) = false := by
  rcases hb : reUpdatedSearch (l ++ [c]) with _ | _
  · rfl
  · exfalso
    obtain ⟨u, w, heq, hw⟩ := (reUpdatedSearch_iff _).mp hb
    have hl : (l ++ [c]).getLast? = some c := List.getLast?_concat l
    rcases List.eq_nil_or_concat w with rfl | ⟨w', x, hwx⟩
    · have hD : (u ++ "UPDATED".toList ++ ([] : List Char)).getLast? = some 'D' := by
        rw [List.append_nil, show "UPDATED".toList = "UPDATE".toList ++ ['D'] from rfl,
          ← List.append_assoc]
        exact List.getLast?_concat _
      rw [heq, hD] at hl
      exact h2 (Option.some.inj hl).symm
    · rw [List.concat_eq_append] at hwx
      subst hwx
      have hx : isPySpace x = true := hw x (List.mem_append.mpr (Or.inr (List.mem_cons_self x [])))
      have hX : (u ++ "UPDATED".toList ++ (w' ++ [x])).getLast? = some x := by
        rw [← List.append_assoc]
        exact List.getLast?_concat _
      rw [heq, hX] at hl
      have : c = x := (Option.some.inj hl).symm
      rw [this, hx] at h1
      cases h1

/-- `str.strip()` is the identity on whitespace-free strings. -/
theorem pyStrip_no_ws (l : List Char) (h : ∀ c ∈ l, isPySpace c = false) :
    pyStrip l = l := by
  rw [pyStrip, lstrip, rstrip, dropWhile_eq_self_of_all_neg _ _ h,
    dropWhile_eq_self_of_all_neg _ _ (fun c hc => h c (List.mem_reverse.mp hc)),
    List.reverse_reverse]

/-- `str.rstrip()` ignores a trailing whitespace character. -/
theorem rstrip_append_ws (x : List Char) (c : Char) (h : isPySpace c = true) :
    rstrip (x ++ [c]) = rstrip x := by
  rw [rstrip, rstrip, List.reverse_append]
  simp [List.dropWhile_cons, h]

/-- Stripping group 1 of the structured title (the left-stripped title plus
the separating space) gives exactly the stripped title. -/
theorem pyStrip_group1 (t : List Char) :
    pyStrip (t.dropWhile isPySpace ++ [' ']) = pyStrip t := by
  rw [pyStrip, pyStrip, lstrip, lstrip]
  rcases hd : t.dropWhile isPySpace with _ | ⟨c0, t''⟩
  · rfl
  · have hc0 : isPySpace c0 = false := dropWhile_head_neg _ t _ _ hd
    rw [List.cons_append, List.dropWhile_cons, hc0]
    simp only [Bool.false_eq_true, if_false]
    rw [← List.cons_append, rstrip_append_ws _ _ (by decide)]

/-- Derived fact: an `[^v\s]` character is not whitespace. -/
theorem isIdChar_no_ws (c : Char) (h : isIdChar c = true) : isPySpace c = false := by
  rw [isIdChar, Bool.and_eq_true] at h
  have h2 := h.2
  rwa [Bool.not_eq_true'] at h2

/-- C3 (amended): the extraction round-trip for titles of the form
`<title> (arXiv:<id>v<n> [<subj>])`, under the grammar's character classes
for each component (title: nonempty `.` characters, so no newline;
identifier: nonempty `[^v\s]`; version: nonempty digits; subject: nonempty
`[^\[\]]`) plus the amendments the regex semantics force: the identifier
contains no `(` and no `[` (else the last parenthetical or first bracketed
token moves), the subject contains no `(` and no newline, and the title has
at least one non-whitespace character.  Then the extractor returns exactly
the stripped title, the identifier, the integer value of the version
digits, the stripped subject, and a false updated flag. -/
theorem parse_title_roundtrip (t i n sj : List Char)
    (ht : ∃ c ∈ t, isPySpace c = false)
    (htn : ∀ c ∈ t, c ≠ '\n')
    (hi0 : i ≠ [])
    (hi : ∀ c ∈ i, isIdChar c = true ∧ c ≠ '(' ∧ c ≠ '[')
    (hn0 : n ≠ [])
    (hn : ∀ c ∈ n, c.isDigit = true)
    (hs0 : sj ≠ [])
    (hsj : ∀ c ∈ sj, isSubjChar c = true ∧ c ≠ '(' ∧ c ≠ '\n') :
    parse_title (t ++ ' ' :: '(' ::
        (("arXiv:".toList ++ (i ++ 'v' :: (n ++ ' ' :: ('[' :: (sj ++ [']']))))) ++ [')'])) =
      .ok ⟨pyStrip t, i, natOfDigits n, pyStrip sj, false⟩ := by
  set meta : List Char := "arXiv:".toList ++ (i ++ 'v' :: (n ++ ' ' :: ('[' :: (sj ++ [']']))))
    with hmeta
  have hiId : ∀ c ∈ i, isIdChar c = true := fun c hc => (hi c hc).1
  have hsjS : ∀ c ∈ sj, isSubjChar c = true := fun c hc => (hsj c hc).1
  have hi_nws : ∀ c ∈ i, isPySpace c = false := fun c hc => isIdChar_no_ws c (hiId c hc)
  have hmn : ∀ c ∈ meta, c ≠ '\n' := by
    intro c hc hceq
    subst hceq
    rw [hmeta] at hc
    rcases List.mem_append.mp hc with h1 | h1
    · revert h1; decide
    · rcases List.mem_append.mp h1 with h2 | h2
      · exact absurd (hi_nws _ h2) (by decide)
      · rcases List.mem_cons.mp h2 with h3 | h3
        · exact absurd h3 (by decide)
        · rcases List.mem_append.mp h3 with h4 | h4
          · exact absurd (hn _ h4) (by decide)
          · rcases List.mem_cons.mp h4 with h5 | h5
            · exact absurd h5 (by decide)
            · rcases List.mem_cons.mp h5 with h6 | h6
              · exact absurd h6 (by decide)
              · rcases List.mem_append.mp h6 with h7 | h7
                · exact (hsj _ h7).2.2 rfl
                · revert h7; decide
  have hmp : ∀ c ∈ meta, c ≠ '(' := by
    intro c hc hceq
    subst hceq
    rw [hmeta] at hc
    rcases List.mem_append.mp hc with h1 | h1
    · revert h1; decide
    · rcases List.mem_append.mp h1 with h2 | h2
      · exact (hi _ h2).2.1 rfl
      · rcases List.mem_cons.mp h2 with h3 | h3
        · exact absurd h3 (by decide)
        · rcases List.mem_append.mp h3 with h4 | h4
          · exact absurd (hn _ h4) (by decide)
          · rcases List.mem_cons.mp h4 with h5 | h5
            · exact absurd h5 (by decide)
            · rcases List.mem_cons.mp h5 with h6 | h6
              · exact absurd h6 (by decide)
              · rcases List.mem_append.mp h6 with h7 | h7
                · exact (hsj _ h7).2.1 rfl
                · revert h7; decide
  have hm0 : meta ≠ [] := by rw [hmeta]; simp
  have htitle := reTitleSearch_structured t meta ht htn hmn hmp hm0
  have hid : reIdSearch meta = some (i, some n) := by
    rw [hmeta]
    exact reIdSearch_structured i n ('[' :: (sj ++ [']'])) hi0 hiId hn0 hn
  have hmeta2 : meta = ("arXiv:".toList ++ (i ++ 'v' :: (n ++ [' ']))) ++
      ('[' :: (sj ++ ']' :: [])) := by
    rw [hmeta]
    simp
  have hpre : '[' ∉ ("arXiv:".toList ++ (i ++ 'v' :: (n ++ [' ']))) := by
    intro hc
    rcases List.mem_append.mp hc with h1 | h1
    · revert h1; decide
    · rcases List.mem_append.mp h1 with h2 | h2
      · exact (hi _ h2).2.2 rfl
      · rcases List.mem_cons.mp h2 with h3 | h3
        · exact absurd h3 (by decide)
        · rcases List.mem_append.mp h3 with h4 | h4
          · exact absurd (hn _ h4) (by decide)
          · revert h4; decide
  have hsub : reSubjectSearch meta = some sj := by
    rw [hmeta2]
    exact reSubjectSearch_structured _ sj [] hpre hs0 hsjS
  have hmeta3 : meta = ("arXiv:".toList ++ (i ++ 'v' :: (n ++ ' ' :: ('[' :: sj)))) ++ [']'] := by
    rw [hmeta]
    simp
  have hupd : reUpdatedSearch meta = false := by
    rw [hmeta3]
    exact reUpdatedSearch_concat_false _ ']' (by decide) (by decide)
  have hne : t ++ ' ' :: '(' :: (meta ++ [')']) ≠ [] := by simp
  have hid_strip : pyStrip i = i := pyStrip_no_ws i hi_nws
  simp only [parse_title, if_neg hne, htitle, hid, hsub, hupd, pyStrip_group1, hid_strip]

/-- Zipping a list with its own image pairs every element with its image. -/
theorem zip_self_map {α β : Type} (l : List α) (g : α → β) :
    l.zip (l.map g) = l.map (fun x => (x, g x)) := by
  induction l with
  | nil => rfl
  | cons x xs ih => rw [List.map_cons, List.zip_cons_cons, ih, List.map_cons]

/-- One `_remove_updated` pass leaves nothing for a second pass. -/
theorem _remove_updated_idem (f : Feed) :
    _remove_updated (_remove_updated f) = _remove_updated f := by
  rw [_remove_updated, _remove_updated]
  simp only [List.filter_filter]
  congr 1
  exact List.filter_congr (fun a _ => Bool.and_self _)

/-- Filtering a duplicate-free list down to membership in one of its
sublists recovers exactly that sublist. -/
theorem filter_mem_of_sublist {α : Type} [DecidableEq α] :
    ∀ {s l : List α}, s.Sublist l → l.Nodup →
      l.filter (fun x => decide (x ∈ s)) = s := by
  intro s l hs
  induction hs with
  | slnil => intro _; rfl
  | @cons l₁ l₂ a hsub ih =>
    intro hl
    rw [List.nodup_cons] at hl
    have ha : a ∉ l₁ := fun hmem => hl.1 (hsub.subset hmem)
    have ha' : (decide (a ∈ l₁) : Bool) = false := by simp [ha]
    rw [List.filter_cons, ha']
    simp only [Bool.false_eq_true, if_false]
    exact ih hl.2
  | @cons₂ l₁ l₂ a hsub ih =>
    intro hl
    rw [List.nodup_cons] at hl
    have h1 : (decide (a ∈ a :: l₁) : Bool) = true := by simp
    rw [List.filter_cons, h1, if_pos rfl]
    congr 1
    have hcong : ∀ x ∈ l₂, (decide (x ∈ a :: l₁) : Bool) = decide (x ∈ l₁) := by
      intro x hx
      have hxa : x ≠ a := fun he => hl.1 (he ▸ hx)
      simp [List.mem_cons, hxa]
    rw [List.filter_congr hcong]
    exact ih hl.2

/-- Store update/lookup laws. -/
theorem storeSetDict_self (st : Store) (r : Nat) (v : List Article) :
    (storeSetDict st r v).dicts r = v := by
  simp [storeSetDict]

theorem storeSetDict_other (st : Store) (r : Nat) (v : List Article) (r' : Nat)
    (h : r' ≠ r) : (storeSetDict st r v).dicts r' = st.dicts r' := by
  simp [storeSetDict, h]

theorem readFeed_setDict (st : Store) (r : Nat) (v : List Article) (g : PFeed)
    (h : g.articlesRef ≠ r) : readFeed (storeSetDict st r v) g = readFeed st g := by
  rw [readFeed, readFeed, storeSetDict_other _ _ _ _ h]
  rfl

/-- Stage A returns the very `Feed` objects it was given. -/
theorem remove_updated_articlesH_feeds (st : Store) (feeds : List PFeed) :
    (remove_updated_articlesH st feeds).2 = feeds := by
  induction feeds generalizing st with
  | nil => rfl
  | cons f rest ih => simp [remove_updated_articlesH, ih]

/-- Stage A only writes the references of the feeds it processes. -/
theorem remove_updated_articlesH_frame (st : Store) (feeds : List PFeed) (r : Nat)
    (h : r ∉ feeds.map (fun f => f.articlesRef)) :
    (remove_updated_articlesH st feeds).1.dicts r = st.dicts r := by
  induction feeds generalizing st with
  | nil => rfl
  | cons f rest ih =>
    simp only [List.map_cons, List.mem_cons] at h
    push_neg at h
    simp only [remove_updated_articlesH]
    rw [ih _ h.2, storeSetDict_other _ _ _ _ h.1]

/-- After Stage A, reading each input feed's `articles` reference shows the
filtered collection: the removals happened in the shared mappings. -/
theorem remove_updated_articlesH_reads (st : Store) (feeds : List PFeed)
    (hnd : (feeds.map (fun f => f.articlesRef)).Nodup) :
    feeds.map (fun f => (remove_updated_articlesH st feeds).1.dicts f.articlesRef) =
      feeds.map (fun f => (st.dicts f.articlesRef).filter (fun a => !a.updated)) := by
  induction feeds generalizing st with
  | nil => rfl
  | cons f rest ih =>
    simp only [List.map_cons, List.nodup_cons] at hnd ⊢
    obtain ⟨hf, hrest⟩ := hnd
    simp only [remove_updated_articlesH]
    congr 1
    · rw [remove_updated_articlesH_frame _ _ _ hf, storeSetDict_self]
    · rw [ih _ hrest]
      apply List.map_congr_left
      intro g hg
      have : g.articlesRef ≠ f.articlesRef := by
        intro he
        exact hf (he ▸ List.mem_map.mpr ⟨g, hg, rfl⟩)
      rw [storeSetDict_other _ _ _ _ this]

/-- Stage B frame lemma. -/
theorem cleanUpCrossesGoH_frame (subjects : List String) (st : Store)
    (feeds : List PFeed) (r : Nat) (h : r ∉ feeds.map (fun f => f.articlesRef)) :
    (cleanUpCrossesGoH subjects st feeds).dicts r = st.dicts r := by
  induction feeds generalizing st with
  | nil => rfl
  | cons f rest ih =>
    simp only [List.map_cons, List.mem_cons] at h
    push_neg at h
    simp only [cleanUpCrossesGoH]
    rw [ih _ h.2, storeSetDict_other _ _ _ _ h.1]

/-- After Stage B, each input feed's shared mapping holds the cross-post
filtered collection. -/
theorem cleanUpCrossesGoH_reads (subjects : List String) (st : Store)
    (feeds : List PFeed)
    (hnd : (feeds.map (fun f => f.articlesRef)).Nodup) :
    feeds.map (fun f => (cleanUpCrossesGoH subjects st feeds).dicts f.articlesRef) =
      feeds.map (fun f => (st.dicts f.articlesRef).filter
        (fun a => !(decide (a.subject ≠ f.subject) && decide (a.subject ∈ subjects)))) := by
  induction feeds generalizing st with
  | nil => rfl
  | cons f rest ih =>
    simp only [List.map_cons, List.nodup_cons] at hnd ⊢
    obtain ⟨hf, hrest⟩ := hnd
    simp only [cleanUpCrossesGoH]
    congr 1
    · rw [cleanUpCrossesGoH_frame _ _ _ _ hf, storeSetDict_self]
    · rw [ih _ hrest]
      apply List.map_congr_left
      intro g hg
      have : g.articlesRef ≠ f.articlesRef := by
        intro he
        exact hf (he ▸ List.mem_map.mpr ⟨g, hg, rfl⟩)
      rw [storeSetDict_other _ _ _ _ this]

/-- Stage C frame lemma. -/
theorem dedupGoH_frame (st : Store) (q : List Nat) (feeds : List PFeed) (r : Nat)
    (h : r ∉ feeds.map (fun f => f.articlesRef)) :
    (dedupGoH st q feeds).dicts r = st.dicts r := by
  induction feeds generalizing st q with
  | nil => rfl
  | cons f rest ih =>
    simp only [List.map_cons, List.mem_cons] at h
    push_neg at h
    simp only [dedupGoH]
    rw [ih _ _ h.2, storeSetDict_other _ _ _ _ h.1]

/-- After Stage C, reading each input feed's reference agrees with the pure
in-order deduplication of the value-level feeds. -/
theorem dedupGoH_reads (st : Store) (q : List Nat) (feeds : List PFeed)
    (hnd : (feeds.map (fun f => f.articlesRef)).Nodup) :
    feeds.map (fun f => (dedupGoH st q feeds).dicts f.articlesRef) =
      (dedupFeedsGo q (feeds.map (readFeed st))).map (fun f => f.articles) := by
  induction feeds generalizing st q with
  | nil => rfl
  | cons f rest ih =>
    simp only [List.map_cons, List.nodup_cons] at hnd ⊢
    obtain ⟨hf, hrest⟩ := hnd
    simp only [dedupGoH, dedupFeedsGo]
    congr 1
    · rw [dedupGoH_frame _ _ _ _ hf, storeSetDict_self]
      rfl
    · have hmaps : rest.map (readFeed
          (storeSetDict st f.articlesRef (dedupArts q (st.dicts f.articlesRef)).2)) =
            rest.map (readFeed st) := by
        apply List.map_congr_left
        intro g hg
        apply readFeed_setDict
        intro he
        exact hf (he ▸ List.mem_map.mpr ⟨g, hg, rfl⟩)
      rw [ih _ _ hrest, hmaps]
      rfl

/-- The XML sync never touches any `articles` mapping. -/
theorem matchXmlGoH_dicts (st : Store) (feeds : List PFeed) :
    (matchXmlGoH st feeds).dicts = st.dicts := by
  induction feeds generalizing st with
  | nil => rfl
  | cons f rest ih => rw [matchXmlGoH, ih]

/-! ## Claim theorems -/

/-- C8: `parse_title` raises an extraction error (`ValueError`) exactly when
one of grammar steps 1–3 finds no match in its input — step 1 (`RE_TITLE`)
on the title text (an empty text also fails step 1), step 2 (`RE_ID`) or
step 3 (`RE_SUBJECT`) on the extracted metadata block.  The step-4 updated
test is a total boolean: it yields true exactly when the metadata block ends
with the literal token `UPDATED` followed only by optional trailing
whitespace, and false otherwise; it never raises.  (The `TypeError` from
`int(None)` on a missing version suffix is not an extraction error and is
not produced by a failed match of steps 1–3.) -/
theorem parse_title_error_classification (text m : List Char) :
    ((∃ e, parse_title text = .error e ∧ e.isExtraction = true) ↔
      (reTitleSearch text = none ∨
        ∃ p, reTitleSearch text = some p ∧
          (reIdSearch p.2 = none ∨ reSubjectSearch p.2 = none))) ∧
    (reUpdatedSearch m = true ↔
      ∃ u w, m = u ++ "UPDATED".toList ++ w ∧ ∀ c ∈ w, isPySpace c = true) := by
  refine ⟨?_, reUpdatedSearch_iff m⟩
  by_cases htext : text = []
  · subst htext
    apply iff_of_true
    · exact ⟨.emptyTitleText, rfl, rfl⟩
    · left
      decide
  · rcases h1 : reTitleSearch text with _ | ⟨ti, meta⟩
    · have hpt : parse_title text = .error .noTitleMatch := by
        simp only [parse_title, if_neg htext, h1]
      apply iff_of_true
      · exact ⟨.noTitleMatch, hpt, rfl⟩
      · exact Or.inl rfl
    · rcases h2 : reIdSearch meta with _ | ⟨axid, vers⟩
      · have hpt : parse_title text = .error .noIdMatch := by
          simp only [parse_title, if_neg htext, h1, h2]
        apply iff_of_true
        · exact ⟨.noIdMatch, hpt, rfl⟩
        · exact Or.inr ⟨(ti, meta), rfl, Or.inl h2⟩
      · rcases h3 : reSubjectSearch meta with _ | subj
        · have hpt : parse_title text = .error .noSubjectMatch := by
            simp only [parse_title, if_neg htext, h1, h2, h3]
          apply iff_of_true
          · exact ⟨.noSubjectMatch, hpt, rfl⟩
          · exact Or.inr ⟨(ti, meta), rfl, Or.inr h3⟩
        · have hrhs : ¬(some (ti, meta) = none ∨
              ∃ p, some (ti, meta) = some p ∧
                (reIdSearch p.2 = none ∨ reSubjectSearch p.2 = none)) := by
            rintro (hnone | ⟨p, hp, hor⟩)
            · exact Option.noConfusion hnone
            · obtain rfl := Option.some.inj hp
              rcases hor with h | h
              · have h' : reIdSearch meta = none := h
                rw [h2] at h'
                exact Option.noConfusion h'
              · have h' : reSubjectSearch meta = none := h
                rw [h3] at h'
                exact Option.noConfusion h'
          rcases vers with _ | ds
          · have hpt : parse_title text = .error .intOfNone := by
              simp only [parse_title, if_neg htext, h1, h2, h3]
            apply iff_of_false _ hrhs
            rintro ⟨e, he, hext⟩
            rw [hpt] at he
            have he' : PyErr.intOfNone = e := Except.error.inj he
            rw [← he'] at hext
            exact Bool.noConfusion hext
          · have hpt : parse_title text =
                .ok ⟨pyStrip ti, pyStrip axid, natOfDigits ds, pyStrip subj,
                  reUpdatedSearch meta⟩ := by
              simp only [parse_title, if_neg htext, h1, h2, h3]
            apply iff_of_false _ hrhs
            rintro ⟨e, he, -⟩
            rw [hpt] at he
            exact Except.noConfusion he

/-- C1: evaluating Stage C at two feeds that both contain an article with
identifier `2101.00001` (distinct objects, as always for articles parsed
from different feeds): `_deduplicate_in_order` removes neither — the seen
`queue` compares by object identity because `Article` defines no `__eq__`
or `__hash__`, so a later feed's article object is never in it, and the
second occurrence of the identifier survives, contradicting the claimed
identifier-keyed deduplication and the function's own documentation. -/
theorem dedup_in_order_keeps_duplicate_identifier :
    _deduplicate_in_order
      [⟨"A", [⟨0, 10, "t", "2101.00001", 1, "A", false⟩], [10]⟩,
       ⟨"B", [⟨1, 11, "t", "2101.00001", 1, "A", false⟩], [11]⟩] =
      [⟨"A", [⟨0, 10, "t", "2101.00001", 1, "A", false⟩], [10]⟩,
       ⟨"B", [⟨1, 11, "t", "2101.00001", 1, "A", false⟩], [11]⟩] := by
  decide

/-- C2: evaluating the extractor at the failing inputs.  A title whose
metadata block has no `v<N>` version suffix does not default the version
to 1: `int(version)` is reached with `version = None` and raises a
`TypeError`.  Moreover a `v0` suffix parses to version 0, so `version ≥ 1`
is not an invariant of successfully constructed entries either. -/
theorem parse_title_version_bug :
    parse_title "Some title (arXiv:2101.00001 [cs.AI])".toList = .error .intOfNone ∧
    parse_title "T (arXiv:xv0 [q])".toList =
      .ok ⟨"T".toList, "x".toList, 0, "q".toList, false⟩ := by
  constructor
  · decide
  · decide

/-- C3 counterexample: the grammar-conforming title
`T (arXiv:a[b]cv1 [cs.AI])` (identifier `a[b]c` matches `[^v\s]+`) is
extracted with subject `"b"` — the first bracketed token of the metadata
block lies inside the identifier — not the claimed `"cs.AI"`. -/
theorem parse_title_roundtrip_counterexample :
    parse_title "T (arXiv:a[b]cv1 [cs.AI])".toList =
      .ok ⟨"T".toList, "a[b]c".toList, 1, "b".toList, false⟩ ∧
    "b".toList ≠ "cs.AI".toList := by
  constructor
  · decide
  · decide

/-- C3 witness: the round-trip theorem applied to the concrete title
`Example (arXiv:2101.00001v2 [nucl-th])`. -/
theorem parse_title_roundtrip_witness :
    (∃ c ∈ "Example".toList, isPySpace c = false) ∧
    parse_title ("Example".toList ++ ' ' :: '(' ::
        (("arXiv:".toList ++ ("2101.00001".toList ++ 'v' ::
          ("2".toList ++ ' ' :: ('[' :: ("nucl-th".toList ++ [']']))))) ++ [')'])) =
      .ok ⟨pyStrip "Example".toList, "2101.00001".toList, natOfDigits "2".toList,
        pyStrip "nucl-th".toList, false⟩ :=
  ⟨by decide,
   parse_title_roundtrip "Example".toList "2101.00001".toList "2".toList "nucl-th".toList
     (by decide) (by decide) (by decide) (by decide) (by decide) (by decide)
     (by decide) (by decide)⟩

/-- C4: Stage B drops an entry exactly when its own subject differs from
the feed's subject and belongs to the requested subject set; positional
pairing of input and output feeds is expressed through `zip`. -/
theorem clean_up_crosses_iff (feeds : List Feed) :
    ∀ p ∈ feeds.zip (_clean_up_crosses feeds), ∀ a ∈ p.1.articles,
      (a ∈ p.2.articles ↔
        ¬(a.subject ≠ p.1.subject ∧ a.subject ∈ feeds.map (fun f => f.subject))) := by
  intro p hp a ha
  simp only [_clean_up_crosses] at hp
  rw [zip_self_map] at hp
  obtain ⟨f, hf, rfl⟩ := List.mem_map.mp hp
  simp only [List.mem_filter, ha, true_and]
  simp
  tauto

/-- C4 witness: a cross-posted entry (subject `B` inside feed `A`, with `B`
among the requested subjects) is dropped, as the membership criterion
evaluates concretely. -/
theorem clean_up_crosses_iff_witness :
    ((⟨"A", [⟨0, 10, "t", "i1", 1, "A", false⟩, ⟨1, 11, "t", "i2", 1, "B", false⟩], []⟩,
        ⟨"A", [⟨0, 10, "t", "i1", 1, "A", false⟩], []⟩) ∈
      ([⟨"A", [⟨0, 10, "t", "i1", 1, "A", false⟩, ⟨1, 11, "t", "i2", 1, "B", false⟩], []⟩,
        (⟨"B", [], []⟩ : Feed)].zip
        (_clean_up_crosses
          [⟨"A", [⟨0, 10, "t", "i1", 1, "A", false⟩, ⟨1, 11, "t", "i2", 1, "B", false⟩], []⟩,
           ⟨"B", [], []⟩]))) ∧
    ((⟨1, 11, "t", "i2", 1, "B", false⟩ : Article) ∈
      ([⟨0, 10, "t", "i1", 1, "A", false⟩, ⟨1, 11, "t", "i2", 1, "B", false⟩] :
        List Article)) ∧
    ((⟨1, 11, "t", "i2", 1, "B", false⟩ : Article) ∈
        (⟨"A", [⟨0, 10, "t", "i1", 1, "A", false⟩], []⟩ : Feed).articles ↔
      ¬((⟨1, 11, "t", "i2", 1, "B", false⟩ : Article).subject ≠ "A" ∧
        (⟨1, 11, "t", "i2", 1, "B", false⟩ : Article).subject ∈
          ([⟨"A", [⟨0, 10, "t", "i1", 1, "A", false⟩, ⟨1, 11, "t", "i2", 1, "B", false⟩], []⟩,
            (⟨"B", [], []⟩ : Feed)].map (fun f => f.subject)))) :=
  ⟨by decide, by decide,
   clean_up_crosses_iff
     [⟨"A", [⟨0, 10, "t", "i1", 1, "A", false⟩, ⟨1, 11, "t", "i2", 1, "B", false⟩], []⟩,
      ⟨"B", [], []⟩]
     (⟨"A", [⟨0, 10, "t", "i1", 1, "A", false⟩, ⟨1, 11, "t", "i2", 1, "B", false⟩], []⟩,
      ⟨"A", [⟨0, 10, "t", "i1", 1, "A", false⟩], []⟩)
     (by decide) ⟨1, 11, "t", "i2", 1, "B", false⟩ (by decide)⟩

/-- C5: the spec's end-to-end scenario, evaluated on the code: subjects
`[A, B]`, feed A = `[id1 (subj A), id2 (subj B)]`, feed B = `[id2 (subj B),
id3 (subj A, UPDATED)]`.  Stage A removes id3, Stage B removes id2 from A,
Stage C removes nothing further, leaving A = `[id1]`, B = `[id2]`. -/
theorem pipeline_end_to_end_scenario :
    deduplicate_feeds (remove_updated_articles
      [⟨"A", [⟨0, 10, "t1", "id1", 1, "A", false⟩, ⟨1, 11, "t2", "id2", 1, "B", false⟩],
        [10, 11]⟩,
       ⟨"B", [⟨2, 12, "t2", "id2", 1, "B", false⟩, ⟨3, 13, "t3", "id3", 1, "A", true⟩],
        [12, 13]⟩]) =
      [⟨"A", [⟨0, 10, "t1", "id1", 1, "A", false⟩], [10, 11]⟩,
       ⟨"B", [⟨2, 12, "t2", "id2", 1, "B", false⟩], [12, 13]⟩] := by
  decide

/-- C6: Stage A keeps exactly the entries whose `updated` flag is false
(positional pairing through `zip`), acts on concatenations feedwise (no
cross-feed interaction), and is idempotent. -/
theorem remove_updated_stage (feeds l1 l2 : List Feed) :
    remove_updated_articles (remove_updated_articles feeds) =
      remove_updated_articles feeds ∧
    remove_updated_articles (l1 ++ l2) =
      remove_updated_articles l1 ++ remove_updated_articles l2 ∧
    ∀ p ∈ feeds.zip (remove_updated_articles feeds), ∀ a ∈ p.1.articles,
      (a ∈ p.2.articles ↔ a.updated = false) := by
  refine ⟨?_, List.map_append _ l1 l2, ?_⟩
  · rw [remove_updated_articles, remove_updated_articles, List.map_map]
    exact List.map_congr_left (fun f _ => _remove_updated_idem f)
  · intro p hp a ha
    rw [remove_updated_articles, zip_self_map] at hp
    obtain ⟨f, hf, rfl⟩ := List.mem_map.mp hp
    simp only [_remove_updated, List.mem_filter, ha, true_and]
    simp

/-- C6 witness: an updated entry is dropped by Stage A while a fresh one is
kept, and idempotence holds at a concrete feed collection. -/
theorem remove_updated_stage_witness :
    ((⟨"A", [⟨0, 10, "t", "i1", 1, "A", false⟩, ⟨1, 11, "t", "i2", 1, "A", true⟩], []⟩,
        ⟨"A", [⟨0, 10, "t", "i1", 1, "A", false⟩], []⟩) ∈
      ([(⟨"A", [⟨0, 10, "t", "i1", 1, "A", false⟩, ⟨1, 11, "t", "i2", 1, "A", true⟩], []⟩ :
          Feed)].zip
        (remove_updated_articles
          [⟨"A", [⟨0, 10, "t", "i1", 1, "A", false⟩, ⟨1, 11, "t", "i2", 1, "A", true⟩], []⟩]))) ∧
    ((⟨1, 11, "t", "i2", 1, "A", true⟩ : Article) ∈
      ([⟨0, 10, "t", "i1", 1, "A", false⟩, ⟨1, 11, "t", "i2", 1, "A", true⟩] :
        List Article)) ∧
    ((⟨1, 11, "t", "i2", 1, "A", true⟩ : Article) ∈
        (⟨"A", [⟨0, 10, "t", "i1", 1, "A", false⟩], []⟩ : Feed).articles ↔
      (⟨1, 11, "t", "i2", 1, "A", true⟩ : Article).updated = false) :=
  ⟨by decide, by decide,
   (remove_updated_stage
      [⟨"A", [⟨0, 10, "t", "i1", 1, "A", false⟩, ⟨1, 11, "t", "i2", 1, "A", true⟩], []⟩]
      [] []).2.2
     (⟨"A", [⟨0, 10, "t", "i1", 1, "A", false⟩, ⟨1, 11, "t", "i2", 1, "A", true⟩], []⟩,
      ⟨"A", [⟨0, 10, "t", "i1", 1, "A", false⟩], []⟩)
     (by decide) ⟨1, 11, "t", "i2", 1, "A", true⟩ (by decide)⟩

/-- C7: when the surviving articles' nodes form (in order) a sublist of the
duplicate-free item-node list of the owned tree — which feed construction
and the entry-only pipeline stages guarantee — the sync step keeps exactly
the nodes of the surviving articles, in particular equally many. -/
theorem match_xml_sync_invariant (f : Feed)
    (hsub : (f.articles.map (fun a => a.node)).Sublist f.xmlItems)
    (hnd : f.xmlItems.Nodup) :
    (_match_xml_to_articles f).xmlItems = f.articles.map (fun a => a.node) ∧
    (_match_xml_to_articles f).xmlItems.length = f.articles.length := by
  have hcong : ∀ nd ∈ f.xmlItems,
      (f.articles.any (fun a => decide (a.node = nd)) : Bool) =
        decide (nd ∈ f.articles.map (fun a => a.node)) := by
    intro nd _
    by_cases h : nd ∈ f.articles.map (fun a => a.node)
    · rcases List.mem_map.mp h with ⟨a, ha, hae⟩
      rw [List.any_eq_true.mpr ⟨a, ha, by simp [hae]⟩]
      simp [h]
    · have h1 : f.articles.any (fun a => decide (a.node = nd)) = false := by
        rcases hb : f.articles.any (fun a => decide (a.node = nd)) with _ | _
        · rfl
        · exfalso
          rcases List.any_eq_true.mp hb with ⟨a, ha, hdec⟩
          exact h (List.mem_map.mpr ⟨a, ha, by simpa using hdec⟩)
      rw [h1]
      simp [h]
  have hmain : (_match_xml_to_articles f).xmlItems = f.articles.map (fun a => a.node) := by
    simp only [_match_xml_to_articles]
    rw [List.filter_congr hcong]
    exact filter_mem_of_sublist hsub hnd
  exact ⟨hmain, by rw [hmain, List.length_map]⟩

/-- C7 witness: a feed with one surviving article (node 10) and a tree
holding nodes 10 and 11 syncs down to exactly node 10. -/
theorem match_xml_sync_invariant_witness :
    ((([⟨0, 10, "t", "i1", 1, "A", false⟩] : List Article).map
        (fun a => a.node)).Sublist [10, 11] ∧ ([10, 11] : List Nat).Nodup) ∧
    ((_match_xml_to_articles ⟨"A", [⟨0, 10, "t", "i1", 1, "A", false⟩], [10, 11]⟩).xmlItems =
        ([⟨0, 10, "t", "i1", 1, "A", false⟩] : List Article).map (fun a => a.node) ∧
      (_match_xml_to_articles
          ⟨"A", [⟨0, 10, "t", "i1", 1, "A", false⟩], [10, 11]⟩).xmlItems.length =
        ([⟨0, 10, "t", "i1", 1, "A", false⟩] : List Article).length) :=
  ⟨⟨by decide, by decide⟩,
   match_xml_sync_invariant ⟨"A", [⟨0, 10, "t", "i1", 1, "A", false⟩], [10, 11]⟩
     (by decide) (by decide)⟩

/-- C10: the reporting divisions of the driver: if some requested feed
constructed with zero entries, the per-feed reduction line divides by zero
and the run aborts before any file is written; with at least one feed and
every pre-pipeline count positive, the run completes and writes its
files. -/
theorem process_zero_entry_feed (feeds : List Feed) :
    ((∃ f ∈ feeds, f.articles.length = 0) →
      process_arxiv_feeds feeds = .perFeedZeroDiv) ∧
    (feeds ≠ [] → (∀ f ∈ feeds, f.articles.length ≠ 0) →
      ∃ w, process_arxiv_feeds feeds = .ok w) := by
  constructor
  · rintro ⟨f, hf, hlen⟩
    simp only [process_arxiv_feeds]
    rw [if_pos (List.mem_map.mpr ⟨f, hf, hlen⟩)]
  · intro hne hall
    simp only [process_arxiv_feeds]
    have h0 : (0 : Nat) ∉ feeds.map (fun f => f.articles.length) := by
      intro hmem
      rcases List.mem_map.mp hmem with ⟨f, hf, hfe⟩
      exact hall f hf hfe
    rw [if_neg h0]
    have hsum : (feeds.map (fun f => f.articles.length)).sum ≠ 0 := by
      cases feeds with
      | nil => exact absurd rfl hne
      | cons f fs =>
        simp only [List.map_cons, List.sum_cons]
        have := hall f (List.mem_cons_self f fs)
        omega
    rw [if_neg hsum]
    exact ⟨_, rfl⟩

/-- C10 witness: a zero-entry feed aborts with the division error and
nothing written; a one-entry feed completes. -/
theorem process_zero_entry_feed_witness :
    process_arxiv_feeds [⟨"A", [], [5]⟩] = .perFeedZeroDiv ∧
    ∃ w, process_arxiv_feeds [⟨"A", [⟨0, 5, "t", "x", 1, "A", false⟩], [5]⟩] = .ok w :=
  ⟨(process_zero_entry_feed [⟨"A", [], [5]⟩]).1 ⟨⟨"A", [], [5]⟩, by decide, by decide⟩,
   (process_zero_entry_feed [⟨"A", [⟨0, 5, "t", "x", 1, "A", false⟩], [5]⟩]).2
     (by decide) (by decide)⟩

/-- C9 counterexample: `copy.copy` is shallow, so Stage A's deletions hit
the `articles` mapping shared with the input feed — after the call, the
input feed's entry collection (read through its unchanged reference) is no
longer what it was before the call. -/
theorem stage_mutates_input_counterexample :
    (remove_updated_articlesH
        ⟨fun _ => [⟨0, 0, "t", "x", 1, "A", true⟩], fun _ => []⟩
        [⟨"A", 0, 0⟩]).1.dicts 0 ≠
      Store.dicts ⟨fun _ => [⟨0, 0, "t", "x", 1, "A", true⟩], fun _ => []⟩ 0 := by
  decide

/-- C9 (amended): no stage is copy-on-write.  Each of the three
entry-removing stages returns the very `Feed` objects it was given and
performs its removals in place on the shared `articles` mappings: reading
each input feed's `articles` reference after the call yields exactly the
value-level result of the corresponding pure stage (so input and output
alias the same, mutated collections).  The XML sync stage also returns its
input objects and leaves every `articles` mapping untouched (it mutates
only the shared markup trees). -/
theorem stages_share_and_mutate_input (st : Store) (feeds : List PFeed) :
    ((remove_updated_articlesH st feeds).2 = feeds ∧
      ((feeds.map (fun f => f.articlesRef)).Nodup →
        feeds.map (fun f => (remove_updated_articlesH st feeds).1.dicts f.articlesRef) =
          (remove_updated_articles (feeds.map (readFeed st))).map (fun f => f.articles))) ∧
    ((_clean_up_crossesH st feeds).2 = feeds ∧
      ((feeds.map (fun f => f.articlesRef)).Nodup →
        feeds.map (fun f => (_clean_up_crossesH st feeds).1.dicts f.articlesRef) =
          (_clean_up_crosses (feeds.map (readFeed st))).map (fun f => f.articles))) ∧
    ((_deduplicate_in_orderH st feeds).2 = feeds ∧
      ((feeds.map (fun f => f.articlesRef)).Nodup →
        feeds.map (fun f => (_deduplicate_in_orderH st feeds).1.dicts f.articlesRef) =
          (_deduplicate_in_order (feeds.map (readFeed st))).map (fun f => f.articles))) ∧
    ((match_xml_to_articlesH st feeds).2 = feeds ∧
      (match_xml_to_articlesH st feeds).1.dicts = st.dicts) := by
  refine ⟨⟨remove_updated_articlesH_feeds st feeds, ?_⟩, ⟨rfl, ?_⟩, ⟨rfl, ?_⟩,
    rfl, matchXmlGoH_dicts st feeds⟩
  · intro hnd
    rw [remove_updated_articlesH_reads st feeds hnd, remove_updated_articles]
    simp only [List.map_map]
    rfl
  · intro hnd
    have hsubj : (feeds.map (readFeed st)).map (fun f => f.subject) =
        feeds.map (fun f => f.subject) := by
      rw [List.map_map]
      rfl
    show feeds.map (fun f => (cleanUpCrossesGoH (feeds.map (fun f => f.subject))
        st feeds).dicts f.articlesRef) = _
    rw [cleanUpCrossesGoH_reads (feeds.map (fun f => f.subject)) st feeds hnd]
    simp only [_clean_up_crosses, hsubj, List.map_map]
    rfl
  · intro hnd
    show feeds.map (fun f => (dedupGoH st [] feeds).dicts f.articlesRef) = _
    rw [dedupGoH_reads st [] feeds hnd]
    rfl

/-- C9 witness: the amended statement evaluated at a one-feed store whose
article is updated: the returned feed list is the input list, and the read
back through the input's reference equals the pure stage results. -/
theorem stages_share_and_mutate_input_witness :
    (([(⟨"A", 0, 0⟩ : PFeed)].map (fun f => f.articlesRef)).Nodup) ∧
    ((remove_updated_articlesH
        ⟨fun _ => [⟨0, 0, "t", "x", 1, "A", true⟩], fun _ => []⟩
        [⟨"A", 0, 0⟩]).2 = [⟨"A", 0, 0⟩] ∧
      [(⟨"A", 0, 0⟩ : PFeed)].map (fun f =>
          (remove_updated_articlesH
            ⟨fun _ => [⟨0, 0, "t", "x", 1, "A", true⟩], fun _ => []⟩
            [⟨"A", 0, 0⟩]).1.dicts f.articlesRef) =
        (remove_updated_articles ([(⟨"A", 0, 0⟩ : PFeed)].map
          (readFeed ⟨fun _ => [⟨0, 0, "t", "x", 1, "A", true⟩], fun _ => []⟩))).map
          (fun f => f.articles)) :=
  ⟨by decide,
   ((stages_share_and_mutate_input
      ⟨fun _ => [⟨0, 0, "t", "x", 1, "A", true⟩], fun _ => []⟩
      [⟨"A", 0, 0⟩]).1.1),
   ((stages_share_and_mutate_input
      ⟨fun _ => [⟨0, 0, "t", "x", 1, "A", true⟩], fun _ => []⟩
      [⟨"A", 0, 0⟩]).1.2 (by decide))⟩

end Arxivrss
